import Mathlib

/-!
Shallow embedding of the rubintv_guide repository.

Two source files are modelled:

* `cdb.py` — class `ConsDB`, a query client with an `lru_cache`-backed
  `_query` method and a retrying `query` method.  The network is modelled
  as an oracle `svc : Nat → Response` giving the outcome of the k-th
  actual network round-trip; client state (`CState`) carries the cache
  (keyed by exact query text, as `lru_cache` keys on the argument) and a
  counter of network calls performed.  Exceptions are modelled with
  `Except`.

* `scrape_blocks.py` — `group_into_blocks`, the block segmentation
  routine.  A `QTable` is a list of typed rows plus an optional `block`
  column (the function adds that column in place, which the model makes
  explicit).  Astropy `Time` values and `Quantity` durations are
  modelled as integers.
-/

namespace Cdb

/-- A JSON response body as `ConsDB.query` reads it: the `columns` and
`data` entries, each `none` when the key is absent (Python `KeyError`). -/
structure Body where
  columns : Option (List String)
  data : Option (List (List Int))
deriving DecidableEq, Inhabited

/-- Outcome of one network round-trip in `ConsDB._query`: either a
`requests.RequestException` (from `post`/`raise_for_status`) or a parsed
JSON body. -/
inductive Response where
  | netError
  | ok (body : Body)
deriving DecidableEq, Inhabited

/-- The exceptions that flow through `ConsDB.query`'s retry loop.
`reqError` is a network `RequestException`; `valueError` is the
"No data returned" error; `keyError` is a missing `columns`/`data` key;
`reqExhausted` is the trailing
`RequestException("Failed to execute query after N retries")`. -/
inductive QErr where
  | reqError
  | valueError
  | keyError
  | reqExhausted
deriving DecidableEq, Inhabited

/-- The `astropy.table.Table` built from a successful response. -/
structure DataTable where
  names : List String
  data : List (List Int)
deriving DecidableEq, Inhabited

/-- Client-instance state: the `lru_cache` of `_query` (an association
list from query text to cached body) and the number of network calls
performed so far. -/
structure CState where
  cache : List (String × Body)
  calls : Nat
deriving DecidableEq, Inhabited

namespace ConsDB

/-- `ConsDB._query`, including its `@lru_cache()` decorator: a cache hit
returns the stored body without touching the network; otherwise one
network call is made, and only a successfully returned body is inserted
into the cache (`lru_cache` does not cache raised exceptions). -/
def _query (svc : Nat → Response) (q : String) (s : CState) :
    CState × Except QErr Body :=
  match s.cache.lookup q with
  | some b => (s, .ok b)
  | none =>
    match svc s.calls with
    | .netError => ({ s with calls := s.calls + 1 }, .error .reqError)
    | .ok b => ({ cache := (q, b) :: s.cache, calls := s.calls + 1 }, .ok b)

/-- The body of the `try` block in `ConsDB.query` after `_query`
returns: read `columns` and `data` (KeyError when absent), raise
`ValueError` when either is empty, otherwise build the table. -/
def parseTable (b : Body) : Except QErr DataTable :=
  match b.columns with
  | none => .error .keyError
  | some cols =>
    match b.data with
    | none => .error .keyError
    | some rows =>
      if cols = [] ∨ rows = [] then .error .valueError
      else .ok { names := cols, data := rows }

/-- The `while attempt < n_retries` loop of `ConsDB.query`.  `fuel` is
the number of loop iterations still to run (`n_retries - attempt`); the
current iteration is the final attempt exactly when `fuel` reaches `0`
afterwards, in which case the caught exception is re-raised.  `fuel = 0`
at entry means the loop is over and the trailing
`raise requests.RequestException(...)` runs. -/
def queryLoop (svc : Nat → Response) (q : String) :
    Nat → CState → CState × Except QErr DataTable
  | 0, s => (s, .error .reqExhausted)
  | fuel + 1, s =>
    match _query svc q s with
    | (s', .error e) =>
      if fuel = 0 then (s', .error e) else queryLoop svc q fuel s'
    | (s', .ok b) =>
      match parseTable b with
      | .ok t => (s', .ok t)
      | .error e =>
        if fuel = 0 then (s', .error e) else queryLoop svc q fuel s'

/-- `ConsDB.query svc q n_retries s`: run the retry loop.  `n_retries`
is an `Int` as in Python; a non-positive value means the loop body never
runs. -/
def query (svc : Nat → Response) (q : String) (n_retries : Int)
    (s : CState) : CState × Except QErr DataTable :=
  queryLoop svc q n_retries.toNat s

end ConsDB

/-- A syntactically valid but empty response body: `{"columns": [], "data": []}`. -/
def emptyBody : Body := ⟨some [], some []⟩

/-- A service whose every response is HTTP-success with the empty body. -/
def svcEmpty : Nat → Response := fun _ => .ok emptyBody

/-- A service whose every network call raises `requests.RequestException`. -/
def svcFail : Nat → Response := fun _ => .netError

/-- A well-formed response body with one column and one row. -/
def goodBody : Body := ⟨some ["c"], some [[1]]⟩

/-- A service whose every response is the well-formed body. -/
def svcGood : Nat → Response := fun _ => .ok goodBody

/-- A fresh client state: empty cache, no network calls yet. -/
def freshState : CState := ⟨[], 0⟩

end Cdb

namespace Scrape

/-- One row of the exposure table as `group_into_blocks` reads it:
`science_program`, `seq_num`, the `begin`/`end` timestamps (named
`tBegin`/`tEnd` since `end` is reserved) and the derived `delay`
column. -/
structure ExposureRow where
  science_program : String
  seq_num : Int
  tBegin : Int
  tEnd : Int
  delay : Int
deriving DecidableEq, Inhabited

/-- A block tuple `(program, seq0, seq1, begin, end)` as produced by
`group_into_blocks`. -/
structure BlockData where
  program : String
  seq0 : Int
  seq1 : Int
  tBegin : Int
  tEnd : Int
deriving DecidableEq, Inhabited

/-- The table passed to `group_into_blocks`: its rows, plus the `block`
column when present (`none` before the function adds it). -/
structure QTable where
  rows : List ExposureRow
  blockCol : Option (List Int)
deriving DecidableEq, Inhabited

/-- The `for i, row in enumerate(table)` loop of `group_into_blocks`,
started at `i = 1`.  Arguments: gap threshold, index and value of
`begin_row`, current index `i`, `previous_row`, and the rows from index
`i` on.  Each emitted block is paired with the index range
`[begin_row.index, end_row.index]` used to mark the `block` column.
`rest = []` is exactly `i == len(table) - 1`. -/
def gibLoop (max_gap : Int) (bIdx : Nat) (begin_row : ExposureRow)
    (i : Nat) (previous_row : ExposureRow) :
    List ExposureRow → List (BlockData × Nat × Nat)
  | [] => []
  | row :: rest =>
    if row.science_program = previous_row.science_program ∧
        row.delay < max_gap ∧ rest ≠ [] then
      gibLoop max_gap bIdx begin_row (i + 1) row rest
    else
      let end_row := if rest = [] then row else previous_row
      let eIdx := if rest = [] then i else i - 1
      (⟨end_row.science_program, begin_row.seq_num, end_row.seq_num,
          begin_row.tBegin, end_row.tEnd⟩, bIdx, eIdx)
        :: gibLoop max_gap i row (i + 1) row rest

/-- Slice assignment `col[lo : hi + 1] = v`. -/
def setRange (col : List Int) (lo hi : Nat) (v : Int) : List Int :=
  col.mapIdx fun j x => if lo ≤ j ∧ j ≤ hi then v else x

/-- The successive `table["block"][begin:end+1] = block_id` assignments,
with `block_id` counting up from `id` in emission order. -/
def markBlocks : List Int → Int → List (BlockData × Nat × Nat) → List Int
  | col, _, [] => col
  | col, id, (_, lo, hi) :: rest => markBlocks (setRange col lo hi id) (id + 1) rest

/-- `group_into_blocks(table, max_gap)`: returns the block list together
with the table as the caller sees it afterwards (the function sets
`table["block"] = -999` and then marks each emitted block's rows in
place; an empty table is returned untouched). -/
def group_into_blocks (table : QTable) (max_gap : Int) :
    List BlockData × QTable :=
  match table.rows with
  | [] => ([], table)
  | r0 :: rest =>
    let items := gibLoop max_gap 0 r0 1 r0 rest
    let col0 := List.replicate (r0 :: rest).length (-999 : Int)
    (items.map Prod.fst,
      { table with blockCol := some (markBlocks col0 0 items) })

/-- Modelled from the spec's §4.3 algorithm description, for comparison
with the source translation `gibLoop`: the loop over indices `i ≥ 1`
with a `blockStart` cursor.  `fuel` counts the iterations still to run
(`n - i`).  At each index: `sameCategory`, `gapOk`, `isLast` are
computed against the records at `i`, `i - 1`; the block continues
exactly when `sameCategory ∧ gapOk ∧ ¬isLast`; otherwise a block
spanning `[blockStart, closingIndex]` is emitted with program label,
ending sequence number and end timestamp from the closing record (the
record at `i` when `isLast`, else at `i - 1`) and starting sequence
number and begin timestamp from the record at `blockStart`, and
`blockStart` becomes `i`. -/
def specLoop (rows : List ExposureRow) (maxGap : Int)
    (blockStart : Nat) (i : Nat) : Nat → List BlockData
  | 0 => []
  | fuel + 1 =>
    if (rows.getD i default).science_program =
          (rows.getD (i - 1) default).science_program ∧
        (rows.getD i default).delay < maxGap ∧ ¬ i = rows.length - 1 then
      specLoop rows maxGap blockStart (i + 1) fuel
    else
      ⟨(rows.getD (if i = rows.length - 1 then i else i - 1)
            default).science_program,
        (rows.getD blockStart default).seq_num,
        (rows.getD (if i = rows.length - 1 then i else i - 1)
            default).seq_num,
        (rows.getD blockStart default).tBegin,
        (rows.getD (if i = rows.length - 1 then i else i - 1)
            default).tEnd⟩
        :: specLoop rows maxGap i (i + 1) fuel

/-- Modelled from the spec: the whole of §4.3's `segment` — empty input
gives no blocks, otherwise the indexed loop runs for `i = 1 .. n - 1`. -/
def segmentSpec (rows : List ExposureRow) (maxGap : Int) : List BlockData :=
  if rows.length = 0 then [] else specLoop rows maxGap 0 1 (rows.length - 1)

/-- Concrete rows for the `[P, P, Q]` scenario: same program twice, then
a different one, all delays `0` (below any positive threshold). -/
def rowP1 : ExposureRow := ⟨"P", 1, 0, 1, 0⟩

/-- Second `P` row. -/
def rowP2 : ExposureRow := ⟨"P", 2, 2, 3, 0⟩

/-- The `Q` row. -/
def rowQ3 : ExposureRow := ⟨"Q", 3, 4, 5, 0⟩

/-- The `[P, P, Q]` table, before any `block` column exists. -/
def tPPQ : QTable := ⟨[rowP1, rowP2, rowQ3], none⟩

/-- Rows of the spec's end-to-end example, timestamps in minutes:
`(A, seq 1, delay 0)`. -/
def rowA1 : ExposureRow := ⟨"A", 1, 0, 1, 0⟩

/-- `(A, seq 2, delay 5 min)`. -/
def rowA2 : ExposureRow := ⟨"A", 2, 6, 7, 5⟩

/-- `(A, seq 3, delay 20 min)`. -/
def rowA3 : ExposureRow := ⟨"A", 3, 27, 28, 20⟩

/-- `(B, seq 4, delay 3 min)`. -/
def rowB4 : ExposureRow := ⟨"B", 4, 31, 32, 3⟩

/-- The end-to-end example table `[(A,1),(A,2),(A,3),(B,4)]`. -/
def tAAAB : QTable := ⟨[rowA1, rowA2, rowA3, rowB4], none⟩

end Scrape

/-! ## Theorems about the `ConsDB` client -/

open Cdb Cdb.ConsDB

theorem _query_snd_ne_exhausted (svc : Nat → Response) (q : String)
    (s : CState) : (ConsDB._query svc q s).2 ≠ .error .reqExhausted := by
  rw [ConsDB._query]
  cases h : s.cache.lookup q with
  | some b => simp
  | none => cases hr : svc s.calls <;> simp

theorem parseTable_ne_exhausted (b : Body) :
    ConsDB.parseTable b ≠ .error .reqExhausted := by
  rcases b with ⟨c, d⟩
  rcases c with _ | cols <;> rcases d with _ | rows <;> simp [ConsDB.parseTable]
  split <;> simp

theorem queryLoop_ne_exhausted (svc : Nat → Response) (q : String) :
    ∀ fuel s, (ConsDB.queryLoop svc q (fuel + 1) s).2 ≠ .error .reqExhausted := by
  intro fuel
  induction fuel with
  | zero =>
    intro s
    rw [ConsDB.queryLoop]
    rcases hq : ConsDB._query svc q s with ⟨s', r⟩
    have he := _query_snd_ne_exhausted svc q s
    rw [hq] at he
    rcases r with e | b
    · simpa using he
    · dsimp only
      rcases hp : ConsDB.parseTable b with e | t
      · have hpe := parseTable_ne_exhausted b
        rw [hp] at hpe
        simpa using hpe
      · simp
  | succ f ih =>
    intro s
    rw [ConsDB.queryLoop]
    rcases hq : ConsDB._query svc q s with ⟨s', r⟩
    rcases r with e | b
    · simpa using ih s'
    · dsimp only
      rcases hp : ConsDB.parseTable b with e | t
      · simpa using ih s'
      · simp

/-- Claim C10: for every call to `ConsDB.query` with `n_retries ≥ 1`,
the trailing raise after the retry loop ("Failed to execute query after
N retries", modelled as `QErr.reqExhausted`) is unreachable — the call
either returns a table or re-raises the last error from inside the
loop; for `n_retries ≤ 0` the loop body never executes and `query`
raises that `RequestException` immediately, without performing any
network call (the state, including the call counter, is untouched). -/
theorem claim_C10_trailing_raise (svc : Nat → Response) (q : String)
    (n : Int) (s : CState) :
    (1 ≤ n → (ConsDB.query svc q n s).2 ≠ .error .reqExhausted) ∧
    (n ≤ 0 → ConsDB.query svc q n s = (s, .error .reqExhausted)) := by
  constructor
  · intro hn
    have h1 : ∃ f, n.toNat = f + 1 := ⟨n.toNat - 1, by omega⟩
    obtain ⟨f, hf⟩ := h1
    rw [ConsDB.query, hf]
    exact queryLoop_ne_exhausted svc q f s
  · intro hn
    have h0 : n.toNat = 0 := by omega
    rw [ConsDB.query, h0, ConsDB.queryLoop]

/-- Witness for C10 at `n_retries = 3` and `n_retries = 0` with an
always-failing service and a fresh client. -/
theorem claim_C10_trailing_raise_witness :
    (ConsDB.query Cdb.svcFail "q" 3 Cdb.freshState).2 ≠
        .error .reqExhausted ∧
      ConsDB.query Cdb.svcFail "q" 0 Cdb.freshState =
        (Cdb.freshState, .error .reqExhausted) :=
  ⟨(claim_C10_trailing_raise Cdb.svcFail "q" 3 Cdb.freshState).1 (by decide),
   (claim_C10_trailing_raise Cdb.svcFail "q" 0 Cdb.freshState).2 (by decide)⟩

theorem queryLoop_all_netError (svc : Nat → Response) (q : String)
    (hfail : ∀ k, svc k = .netError) :
    ∀ fuel s, s.cache.lookup q = none →
      ConsDB.queryLoop svc q (fuel + 1) s =
        (⟨s.cache, s.calls + (fuel + 1)⟩, .error .reqError) := by
  intro fuel
  induction fuel with
  | zero =>
    intro s hnc
    rw [ConsDB.queryLoop]
    rw [ConsDB._query, hnc, hfail s.calls]
    rfl
  | succ f ih =>
    intro s hnc
    rw [ConsDB.queryLoop]
    rw [ConsDB._query, hnc, hfail s.calls]
    dsimp only
    rw [if_neg (Nat.succ_ne_zero f)]
    rw [ih ⟨s.cache, s.calls + 1⟩ hnc]
    have harith : s.calls + 1 + (f + 1) = s.calls + (f + 1 + 1) := by omega
    rw [harith]

/-- Claim C7: if every attempt against the remote service fails,
`query` performs exactly `n_retries` attempts — here `n_retries`
network calls, since a network error is never cached and every retry
re-contacts the service — and then raises, propagating the final
attempt's original `RequestException` (`QErr.reqError`, not the
replacement `reqExhausted` message) to the caller. -/
theorem claim_C7_retry_exhaustion (svc : Nat → Response) (q : String)
    (n : Int) (s : CState) (hfail : ∀ k, svc k = .netError)
    (hnc : s.cache.lookup q = none) (hn : 1 ≤ n) :
    ConsDB.query svc q n s =
      (⟨s.cache, s.calls + n.toNat⟩, .error .reqError) := by
  have h1 : ∃ f, n.toNat = f + 1 := ⟨n.toNat - 1, by omega⟩
  obtain ⟨f, hf⟩ := h1
  rw [ConsDB.query, hf]
  exact queryLoop_all_netError svc q hfail f s hnc

/-- Witness for C7: three attempts against an always-failing service
from a fresh client make exactly three network calls and re-raise the
network error. -/
theorem claim_C7_retry_exhaustion_witness :
    ConsDB.query Cdb.svcFail "q" 3 Cdb.freshState =
      (⟨Cdb.freshState.cache, Cdb.freshState.calls + (3 : Int).toNat⟩,
        .error .reqError) :=
  claim_C7_retry_exhaustion Cdb.svcFail "q" 3 Cdb.freshState
    (fun _ => rfl) rfl (by decide)

theorem _query_ok_lookup (svc : Nat → Response) (q : String)
    (s s₁ : CState) (b : Body) :
    ConsDB._query svc q s = (s₁, .ok b) → s₁.cache.lookup q = some b := by
  rw [ConsDB._query]
  rcases hl : s.cache.lookup q with _ | b'
  · rcases hr : svc s.calls with _ | b''
    · intro h
      simp at h
    · intro h
      simp only [Prod.mk.injEq] at h
      obtain ⟨h1, h2⟩ := h
      subst h1
      simp only [Except.ok.injEq] at h2
      subst h2
      simp [List.lookup]
  · intro h
    simp only [Prod.mk.injEq] at h
    obtain ⟨h1, h2⟩ := h
    subst h1
    simp only [Except.ok.injEq] at h2
    subst h2
    exact hl

theorem queryLoop_ok_lookup (svc : Nat → Response) (q : String) :
    ∀ fuel s s' t, ConsDB.queryLoop svc q fuel s = (s', .ok t) →
      ∃ b, s'.cache.lookup q = some b ∧ ConsDB.parseTable b = .ok t := by
  intro fuel
  induction fuel with
  | zero =>
    intro s s' t h
    rw [ConsDB.queryLoop] at h
    simp at h
  | succ f ih =>
    intro s s' t h
    rw [ConsDB.queryLoop] at h
    rcases hq : ConsDB._query svc q s with ⟨s₁, r⟩
    rw [hq] at h
    rcases r with e | b
    · dsimp only at h
      rcases Nat.eq_zero_or_pos f with hf | hf
      · subst hf
        simp at h
      · rw [if_neg (by omega : ¬ f = 0)] at h
        exact ih _ s' t h
    · dsimp only at h
      rcases hp : ConsDB.parseTable b with e | t'
      · rw [hp] at h
        dsimp only at h
        rcases Nat.eq_zero_or_pos f with hf | hf
        · subst hf
          simp at h
        · rw [if_neg (by omega : ¬ f = 0)] at h
          exact ih _ s' t h
      · rw [hp] at h
        dsimp only at h
        simp only [Prod.mk.injEq] at h
        obtain ⟨h1, h2⟩ := h
        subst h1
        simp only [Except.ok.injEq] at h2
        subst h2
        exact ⟨b, _query_ok_lookup svc q s s₁ b hq, hp⟩

/-- Claim C8: once an issuance of a query string through the client has
returned a table, issuing the identical query string again performs no
further network call — the state `s'` (cache and call counter) is
returned unchanged — and returns an equal result.  The first successful
issuance leaves the parsed body in the cache, so the second is a pure
cache hit. -/
theorem claim_C8_cache_idempotent (svc : Nat → Response) (q : String)
    (n₁ n₂ : Int) (s s' : CState) (t : DataTable)
    (h1 : ConsDB.query svc q n₁ s = (s', .ok t)) (h2 : 1 ≤ n₂) :
    ConsDB.query svc q n₂ s' = (s', .ok t) := by
  obtain ⟨b, hb, hp⟩ := queryLoop_ok_lookup svc q n₁.toNat s s' t h1
  obtain ⟨f, hf⟩ : ∃ f, n₂.toNat = f + 1 := ⟨n₂.toNat - 1, by omega⟩
  rw [ConsDB.query, hf, ConsDB.queryLoop, ConsDB._query, hb]
  dsimp only
  rw [hp]

/-- Witness for C8: after one successful issuance (one network call,
body cached), re-issuing the same query returns the same table with the
call counter still at `1`. -/
theorem claim_C8_cache_idempotent_witness :
    ConsDB.query Cdb.svcGood "q" 1 ⟨[("q", Cdb.goodBody)], 1⟩ =
      (⟨[("q", Cdb.goodBody)], 1⟩, .ok ⟨["c"], [[1]]⟩) :=
  claim_C8_cache_idempotent Cdb.svcGood "q" 1 1 Cdb.freshState
    ⟨[("q", Cdb.goodBody)], 1⟩ ⟨["c"], [[1]]⟩ rfl (by decide)

/-- Claim C5 is contradicted by the code: a response that is
syntactically valid but empty (`{"columns": [], "data": []}`) IS
cached by `_query`'s `lru_cache` (only raised exceptions are not
cached), so with `n_retries = 3` the two retry attempts hit the cache
instead of re-contacting the service: exactly one network call is
performed, the cache ends up holding the failed response, and the
final "No data returned" `ValueError` propagates. -/
theorem claim_C5_empty_failure_is_cached :
    ConsDB.query Cdb.svcEmpty "q" 3 Cdb.freshState =
      (⟨[("q", Cdb.emptyBody)], 1⟩, .error .valueError) := rfl

/-! ## Theorems about `group_into_blocks` -/

open Scrape

/-- Claim C6: `group_into_blocks` returns an empty block list for an
empty input, and an input of exactly one record yields zero blocks (the
loop body that can close a block never runs for `i = 0`, and there is
no `i = 1`). -/
theorem claim_C6_empty_and_single_input (mg : Int) (c : Option (List Int))
    (r : ExposureRow) :
    (group_into_blocks ⟨[], c⟩ mg).1 = [] ∧
    (group_into_blocks ⟨[r], c⟩ mg).1 = [] :=
  ⟨rfl, rfl⟩

/-- Counterexample to claim C1: on the concrete `[P, P, Q]` table with
every delay `0`, strictly below `maxGap = 1`, the code does NOT return
two blocks.  (At the last index the closing record is the current
record regardless of why the block closed, so the program change at `Q`
never splits: one block covering all three records is emitted.) -/
theorem claim_C1_counterexample :
    ¬ (group_into_blocks tPPQ 1).1.length = 2 := by decide

/-- Claim C1 amended: for three records with program labels `[P, P, Q]`
and every delay strictly below `maxGap`, `group_into_blocks` returns
exactly ONE block, spanning all three records: its program label is the
`Q` record's, its sequence numbers run from the first record's to the
`Q` record's, its begin timestamp is the first record's and its end
timestamp the `Q` record's. -/
theorem claim_C1_amended_single_block (r₁ r₂ r₃ : ExposureRow) (mg : Int)
    (c : Option (List Int))
    (h12 : r₁.science_program = r₂.science_program)
    (hne : r₂.science_program ≠ r₃.science_program)
    (hd1 : r₁.delay < mg) (hd2 : r₂.delay < mg) (hd3 : r₃.delay < mg) :
    (group_into_blocks ⟨[r₁, r₂, r₃], c⟩ mg).1 =
      [⟨r₃.science_program, r₁.seq_num, r₃.seq_num, r₁.tBegin, r₃.tEnd⟩] := by
  have hstep : (group_into_blocks ⟨[r₁, r₂, r₃], c⟩ mg).1 =
      (gibLoop mg 0 r₁ 1 r₁ [r₂, r₃]).map Prod.fst := rfl
  rw [hstep]
  rw [gibLoop, if_pos ⟨h12.symm, hd2, by simp⟩]
  rw [gibLoop, if_neg (by simp)]
  simp [gibLoop]

/-- Witness for the amended C1 at the concrete `[P, P, Q]` table. -/
theorem claim_C1_amended_single_block_witness :
    (group_into_blocks tPPQ 1).1 = [⟨"Q", 1, 3, 0, 5⟩] :=
  claim_C1_amended_single_block rowP1 rowP2 rowQ3 1 none (by decide)
    (by decide) (by decide) (by decide) (by decide)

/-- Counterexample to claim C2: the end-to-end example
`[(A,1,0),(A,2,5),(A,3,20),(B,4,3)]` with `maxGap = 15` does NOT yield
three blocks. -/
theorem claim_C2_counterexample :
    ¬ (group_into_blocks tAAAB 15).1.length = 3 := by decide

/-- Claim C2 amended: the example yields exactly TWO blocks.  The gap of
20 min ≥ 15 min splits before `(A,3)`; the program change at `(B,4)`
falls on the last index, where the closing record is the current record
itself, so `(A,3)` and `(B,4)` are merged into one block labelled `B`
spanning sequence numbers 3–4.  Each block's begin timestamp is its
first record's `begin` and its end timestamp its last record's `end`. -/
theorem claim_C2_amended_two_blocks :
    (group_into_blocks tAAAB 15).1 =
      [⟨"A", 1, 2, 0, 7⟩, ⟨"B", 3, 4, 27, 32⟩] := by decide

theorem setRange_length (col : List Int) (lo hi : Nat) (v : Int) :
    (setRange col lo hi v).length = col.length := by
  simp [setRange]

theorem markBlocks_length :
    ∀ (items : List (BlockData × Nat × Nat)) (col : List Int) (id : Int),
      (markBlocks col id items).length = col.length
  | [], _, _ => rfl
  | (x :: rest), col, id => by
    rw [markBlocks, markBlocks_length rest, setRange_length]

/-- Counterexample to claim C9: the table seen by the caller after
`group_into_blocks` returns is NOT the table passed in — the function
adds a `block` column in place. -/
theorem claim_C9_counterexample :
    ¬ (group_into_blocks tPPQ 1).2 = tPPQ := by decide

/-- Claim C9 amended: `group_into_blocks` never modifies any field of
any record — the rows after the call equal the rows passed in, and an
empty table is returned entirely unchanged — but on a non-empty table
it mutates the table itself, adding (or overwriting) a `block` column
with one entry per row. -/
theorem claim_C9_amended_rows_preserved (t : QTable) (mg : Int) :
    (group_into_blocks t mg).2.rows = t.rows ∧
    (t.rows = [] → (group_into_blocks t mg).2 = t) ∧
    (t.rows ≠ [] → ∃ col, (group_into_blocks t mg).2.blockCol = some col ∧
      col.length = t.rows.length) := by
  rcases ht : t.rows with _ | ⟨r0, rest⟩
  · have hempty : group_into_blocks t mg = ([], t) := by
      rw [group_into_blocks, ht]
    rw [hempty]
    simp [ht]
  · have hcons : (group_into_blocks t mg).2 =
        { t with blockCol := some (markBlocks
            (List.replicate (r0 :: rest).length (-999 : Int)) 0
            (gibLoop mg 0 r0 1 r0 rest)) } := by
      rw [group_into_blocks, ht]
    rw [hcons]
    refine ⟨ht, by simp, fun _ => ⟨_, rfl, ?_⟩⟩
    rw [markBlocks_length, List.length_replicate]

/-- Witness for the amended C9: on the `[P, P, Q]` table the rows come
back unchanged and a 3-entry `block` column has been added. -/
theorem claim_C9_amended_rows_preserved_witness :
    (group_into_blocks tPPQ 1).2.rows = tPPQ.rows ∧
    ∃ col, (group_into_blocks tPPQ 1).2.blockCol = some col ∧
      col.length = tPPQ.rows.length :=
  ⟨(claim_C9_amended_rows_preserved tPPQ 1).1,
   (claim_C9_amended_rows_preserved tPPQ 1).2.2 (by decide)⟩

theorem gibLoop_map_fst_eq_specLoop (mg : Int) (rows : List ExposureRow) :
    ∀ (l : List ExposureRow) (i b : Nat), l = rows.drop i → 1 ≤ i → b < i →
      (gibLoop mg b (rows.getD b default) i (rows.getD (i - 1) default)
          l).map Prod.fst =
        specLoop rows mg b i l.length := by
  intro l
  induction l with
  | nil =>
    intro i b _ _ _
    rfl
  | cons row rest ih =>
    intro i b hdrop h1 hb
    have hlen : i < rows.length := by
      by_contra hge
      rw [List.drop_eq_nil_of_le (by omega)] at hdrop
      simp at hdrop
    rw [List.drop_eq_getElem_cons hlen] at hdrop
    injection hdrop with hrow hrest
    have hgetD : rows.getD i default = row := by
      rw [List.getD_eq_getElem?_getD, List.getElem?_eq_getElem hlen,
        Option.getD_some]
      exact hrow.symm
    have hrl : rest.length = rows.length - (i + 1) := by
      rw [hrest, List.length_drop]
    have hlast : (i = rows.length - 1) ↔ rest = [] := by
      rw [← List.length_eq_zero]
      omega
    rw [List.length_cons, specLoop, gibLoop, hgetD]
    simp only [hlast]
    by_cases hcond : row.science_program =
        (rows.getD (i - 1) default).science_program ∧
        row.delay < mg ∧ ¬ rest = []
    · rw [if_pos hcond, if_pos hcond]
      have hih := ih (i + 1) b hrest (by omega) (by omega)
      rw [Nat.add_sub_cancel, hgetD] at hih
      exact hih
    · rw [if_neg hcond, if_neg hcond, List.map_cons]
      have hih := ih (i + 1) i hrest (by omega) (by omega)
      rw [Nat.add_sub_cancel, hgetD] at hih
      rw [hih]
      by_cases hr0 : rest = []
      · simp [hr0, List.getElem?_eq_getElem hlen, ← hrow]
      · simp [hr0]

/-- Claim C3: the spec's per-index description of the loop — for every
`i ≥ 1` the block continues exactly when the record at `i` has the same
program label as the record at `i - 1`, its delay is strictly below
`maxGap`, and `i` is not the last index; otherwise a block spanning
`[blockStart, closingIndex]` is emitted, the closing record being the
record at `i` when `i` is last and the record at `i - 1` otherwise,
with program label, ending sequence number and end timestamp from the
closing record and starting sequence number and begin timestamp from
the record at `blockStart`, after which `blockStart` becomes `i` — is
exactly what the code does: `group_into_blocks`'s block list equals the
spec-modelled `segmentSpec` on every input. -/
theorem claim_C3_loop_characterisation (t : QTable) (mg : Int) :
    (group_into_blocks t mg).1 = segmentSpec t.rows mg := by
  rcases ht : t.rows with _ | ⟨r0, rest⟩
  · have hstep : (group_into_blocks t mg).1 = [] := by
      rw [group_into_blocks, ht]
    rw [hstep, segmentSpec]
    simp
  · have hstep : (group_into_blocks t mg).1 =
        (gibLoop mg 0 r0 1 r0 rest).map Prod.fst := by
      rw [group_into_blocks, ht]
    have hmain := gibLoop_map_fst_eq_specLoop mg (r0 :: rest) rest 1 0 rfl
      (by omega) (by omega)
    rw [hstep, segmentSpec]
    rw [if_neg (by simp)]
    simp only [List.length_cons, Nat.add_sub_cancel]
    simpa using hmain

theorem gibLoop_cont_eq (mg : Int) (b i : Nat) (br pr x : ExposureRow)
    (rest : List ExposureRow)
    (hc : x.science_program = pr.science_program ∧ x.delay < mg ∧
      rest ≠ []) :
    gibLoop mg b br i pr (x :: rest) = gibLoop mg b br (i + 1) x rest := by
  rw [gibLoop, if_pos hc]

theorem gibLoop_close_eq (mg : Int) (b i : Nat) (br pr x : ExposureRow)
    (rest : List ExposureRow)
    (hc : ¬ (x.science_program = pr.science_program ∧ x.delay < mg ∧
      rest ≠ [])) :
    gibLoop mg b br i pr (x :: rest) =
      (⟨(if rest = [] then x else pr).science_program, br.seq_num,
          (if rest = [] then x else pr).seq_num, br.tBegin,
          (if rest = [] then x else pr).tEnd⟩, b,
        if rest = [] then i else i - 1) :: gibLoop mg i x (i + 1) x rest := by
  rw [gibLoop, if_neg hc]

theorem gibLoop_ne_nil (mg : Int) :
    ∀ (l : List ExposureRow) (i b : Nat) (br pr : ExposureRow), l ≠ [] →
      gibLoop mg b br i pr l ≠ [] := by
  intro l
  induction l with
  | nil =>
    intro i b br pr h
    exact absurd rfl h
  | cons x rest ih =>
    intro i b br pr _
    by_cases hc : x.science_program = pr.science_program ∧ x.delay < mg ∧
        rest ≠ []
    · rw [gibLoop_cont_eq mg b i br pr x rest hc]
      exact ih (i + 1) b br x hc.2.2
    · rw [gibLoop_close_eq mg b i br pr x rest hc]
      simp

theorem gibLoop_head_span (mg : Int) :
    ∀ (l : List ExposureRow) (i b : Nat) (br pr : ExposureRow), l ≠ [] →
      ((gibLoop mg b br i pr l).getD 0 default).2.1 = b := by
  intro l
  induction l with
  | nil =>
    intro i b br pr h
    exact absurd rfl h
  | cons x rest ih =>
    intro i b br pr _
    by_cases hc : x.science_program = pr.science_program ∧ x.delay < mg ∧
        rest ≠ []
    · rw [gibLoop_cont_eq mg b i br pr x rest hc]
      exact ih (i + 1) b br x hc.2.2
    · rw [gibLoop_close_eq mg b i br pr x rest hc]
      simp

theorem gibLoop_flatMap_range (mg : Int) :
    ∀ (l : List ExposureRow) (i b : Nat) (br pr : ExposureRow),
      l ≠ [] → 1 ≤ i → b < i →
      ((gibLoop mg b br i pr l).flatMap
          fun x => List.range' x.2.1 (x.2.2 + 1 - x.2.1)) =
        List.range' b (i + l.length - b) := by
  intro l
  induction l with
  | nil =>
    intro i b br pr h _ _
    exact absurd rfl h
  | cons x rest ih =>
    intro i b br pr _ h1 hb
    by_cases hc : x.science_program = pr.science_program ∧ x.delay < mg ∧
        rest ≠ []
    · rw [gibLoop_cont_eq mg b i br pr x rest hc]
      rw [ih (i + 1) b br x hc.2.2 (by omega) (by omega)]
      congr 1
      simp only [List.length_cons]
      omega
    · rw [gibLoop_close_eq mg b i br pr x rest hc, List.flatMap_cons]
      by_cases hr : rest = []
      · subst hr
        simp only [gibLoop, List.flatMap_nil, List.append_nil, if_pos,
          List.length_cons, List.length_nil]
      · rw [ih (i + 1) i x x hr (by omega) (by omega)]
        simp only [if_neg hr]
        have h1' : i - 1 + 1 - b = i - b := by omega
        have h2' : i + 1 + rest.length - i = rest.length + 1 := by omega
        rw [h1', h2']
        have happ := List.range'_append_1 b (i - b) (rest.length + 1)
        rw [Nat.add_sub_cancel' (Nat.le_of_lt hb)] at happ
        rw [happ]
        congr 1
        simp only [List.length_cons]
        omega

theorem gibLoop_mem_spec (mg : Int) (rows : List ExposureRow) :
    ∀ (l : List ExposureRow) (i b : Nat), l = rows.drop i → 1 ≤ i → b < i →
      ∀ x ∈ gibLoop mg b (rows.getD b default) i
          (rows.getD (i - 1) default) l,
        x.2.1 ≤ x.2.2 ∧ x.2.2 < rows.length ∧
        x.1.seq0 = (rows.getD x.2.1 default).seq_num ∧
        x.1.seq1 = (rows.getD x.2.2 default).seq_num := by
  intro l
  induction l with
  | nil =>
    intro i b _ _ _ x hx
    simp [gibLoop] at hx
  | cons row rest ih =>
    intro i b hdrop h1 hb x hx
    have hlen : i < rows.length := by
      by_contra hge
      rw [List.drop_eq_nil_of_le (by omega)] at hdrop
      simp at hdrop
    rw [List.drop_eq_getElem_cons hlen] at hdrop
    injection hdrop with hrow hrest
    have hgetD : rows.getD i default = row := by
      rw [List.getD_eq_getElem?_getD, List.getElem?_eq_getElem hlen,
        Option.getD_some]
      exact hrow.symm
    by_cases hc : row.science_program =
        (rows.getD (i - 1) default).science_program ∧
        row.delay < mg ∧ rest ≠ []
    · rw [gibLoop_cont_eq mg b i _ _ row rest hc] at hx
      apply ih (i + 1) b hrest (by omega) (by omega) x
      rw [Nat.add_sub_cancel, hgetD]
      exact hx
    · rw [gibLoop_close_eq mg b i _ _ row rest hc] at hx
      rcases List.mem_cons.mp hx with hx0 | hxtail
      · subst hx0
        by_cases hr : rest = []
        · subst hr
          refine ⟨?_, ?_, ?_, ?_⟩
          · show b ≤ i
            omega
          · show i < rows.length
            exact hlen
          · rfl
          · show row.seq_num = (rows.getD i default).seq_num
            rw [hgetD]
        · simp only [if_neg hr]
          refine ⟨?_, ?_, ?_, ?_⟩
          · show b ≤ i - 1
            omega
          · show i - 1 < rows.length
            omega
          · trivial
          · trivial
      · apply ih (i + 1) i hrest (by omega) (by omega) x
        rw [Nat.add_sub_cancel, hgetD]
        exact hxtail

theorem gibLoop_spans_chain (mg : Int) :
    ∀ (l : List ExposureRow) (i b : Nat) (br pr : ExposureRow),
      1 ≤ i → b < i →
      ∀ j, j + 1 < (gibLoop mg b br i pr l).length →
        ((gibLoop mg b br i pr l).getD (j + 1) default).2.1 =
          ((gibLoop mg b br i pr l).getD j default).2.2 + 1 := by
  intro l
  induction l with
  | nil =>
    intro i b br pr _ _ j hj
    simp [gibLoop] at hj
  | cons x rest ih =>
    intro i b br pr h1 hb j hj
    by_cases hc : x.science_program = pr.science_program ∧ x.delay < mg ∧
        rest ≠ []
    · rw [gibLoop_cont_eq mg b i br pr x rest hc] at hj ⊢
      exact ih (i + 1) b br x (by omega) (by omega) j hj
    · rw [gibLoop_close_eq mg b i br pr x rest hc] at hj ⊢
      rcases j with _ | j'
      · have htl : rest ≠ [] := by
          intro h0
          subst h0
          simp [gibLoop] at hj
        rw [List.getD_cons_succ, List.getD_cons_zero]
        rw [gibLoop_head_span mg rest (i + 1) i x x htl]
        simp only [if_neg htl]
        omega
      · rw [List.getD_cons_succ, List.getD_cons_succ]
        rw [List.length_cons] at hj
        exact ih (i + 1) i x x (by omega) (by omega) j' (by omega)

/-- Claim C4: for every input of at least two records whose sequence
numbers are strictly increasing, the blocks returned partition the
input exactly: there is one index span per returned block; the
concatenation of the spans' index ranges, in block order, is precisely
`[0, ..., n-1]` (so every record index falls in exactly one block's
span, blocks are contiguous and ordered, and spans neither overlap nor
leave a gap); each block's starting/ending sequence numbers are those
of the records at its span's endpoints; and consecutive blocks'
sequence-number ranges are strictly separated (no overlap, and no
record lies between them since the spans are adjacent). -/
theorem claim_C4_partition_invariant (t : QTable) (mg : Int)
    (h2 : 2 ≤ t.rows.length)
    (hmono : t.rows.Chain' fun a b => a.seq_num < b.seq_num) :
    ∃ spans : List (Nat × Nat),
      spans.length = (group_into_blocks t mg).1.length ∧
      (spans.flatMap fun p => List.range' p.1 (p.2 + 1 - p.1)) =
        List.range t.rows.length ∧
      (∀ j, j < spans.length →
        (spans.getD j (0, 0)).1 ≤ (spans.getD j (0, 0)).2 ∧
        (spans.getD j (0, 0)).2 < t.rows.length ∧
        ((group_into_blocks t mg).1.getD j default).seq0 =
          (t.rows.getD (spans.getD j (0, 0)).1 default).seq_num ∧
        ((group_into_blocks t mg).1.getD j default).seq1 =
          (t.rows.getD (spans.getD j (0, 0)).2 default).seq_num) ∧
      (∀ j, j + 1 < (group_into_blocks t mg).1.length →
        ((group_into_blocks t mg).1.getD j default).seq1 <
          ((group_into_blocks t mg).1.getD (j + 1) default).seq0) := by
  rcases ht : t.rows with _ | ⟨r0, rest⟩
  · rw [ht] at h2
    simp at h2
  · rw [ht] at h2 hmono
    have hrest : rest ≠ [] := by
      intro h0
      rw [h0] at h2
      simp at h2
    have hblocks : (group_into_blocks t mg).1 =
        (gibLoop mg 0 r0 1 r0 rest).map Prod.fst := by
      rw [group_into_blocks, ht]
    rw [hblocks]
    have hmem := gibLoop_mem_spec mg (r0 :: rest) rest 1 0 rfl
      (by omega) (by omega)
    simp only [Nat.sub_self, List.getD_cons_zero] at hmem
    have hmemof : ∀ j, j < (gibLoop mg 0 r0 1 r0 rest).length →
        (gibLoop mg 0 r0 1 r0 rest).getD j default ∈
          gibLoop mg 0 r0 1 r0 rest := by
      intro j hj
      rw [List.getD_eq_getElem?_getD, List.getElem?_eq_getElem hj,
        Option.getD_some]
      exact List.getElem_mem hj
    have hblk : ∀ j, j < (gibLoop mg 0 r0 1 r0 rest).length →
        ((gibLoop mg 0 r0 1 r0 rest).map Prod.fst).getD j default =
          ((gibLoop mg 0 r0 1 r0 rest).getD j default).1 := by
      intro j hj
      rw [List.getD_eq_getElem?_getD,
        List.getElem?_eq_getElem (by simpa using hj), Option.getD_some,
        List.getElem_map, List.getD_eq_getElem?_getD,
        List.getElem?_eq_getElem hj, Option.getD_some]
    have hspanj : ∀ j, j < (gibLoop mg 0 r0 1 r0 rest).length →
        ((gibLoop mg 0 r0 1 r0 rest).map fun x => x.2).getD j (0, 0) =
          ((gibLoop mg 0 r0 1 r0 rest).getD j default).2 := by
      intro j hj
      rw [List.getD_eq_getElem?_getD,
        List.getElem?_eq_getElem (by simpa using hj), Option.getD_some,
        List.getElem_map, List.getD_eq_getElem?_getD,
        List.getElem?_eq_getElem hj, Option.getD_some]
    have hgd : ∀ k (hk : k < (r0 :: rest).length),
        (r0 :: rest).getD k default = (r0 :: rest).get ⟨k, hk⟩ := by
      intro k hk
      rw [List.getD_eq_getElem?_getD, List.getElem?_eq_getElem hk,
        Option.getD_some, List.get_eq_getElem]
    refine ⟨(gibLoop mg 0 r0 1 r0 rest).map fun x => x.2, by simp, ?_, ?_, ?_⟩
    · rw [List.flatMap_map, List.range_eq_range', List.length_cons]
      have hcover := gibLoop_flatMap_range mg rest 1 0 r0 r0 hrest
        (by omega) (by omega)
      have harith : 1 + rest.length - 0 = rest.length + 1 := by omega
      rw [harith] at hcover
      exact hcover
    · intro j hj
      rw [List.length_map] at hj
      rw [hspanj j hj, hblk j hj]
      have hx := hmem _ (hmemof j hj)
      exact ⟨hx.1, hx.2.1, hx.2.2.1, hx.2.2.2⟩
    · intro j hj
      rw [List.length_map] at hj
      have hj0 : j < (gibLoop mg 0 r0 1 r0 rest).length := by omega
      have hchain := gibLoop_spans_chain mg rest 1 0 r0 r0
        (by omega) (by omega) j hj
      have hxj := hmem _ (hmemof j hj0)
      have hxj1 := hmem _ (hmemof (j + 1) hj)
      rw [hblk j hj0, hblk (j + 1) hj]
      rw [hxj.2.2.2, hxj1.2.2.1, hchain]
      have hh : ((gibLoop mg 0 r0 1 r0 rest).getD j default).2.2 <
          (r0 :: rest).length := hxj.2.1
      have hh1 : ((gibLoop mg 0 r0 1 r0 rest).getD j default).2.2 + 1 <
          (r0 :: rest).length := by
        have h1' := hxj1.1
        have h2' := hxj1.2.1
        omega
      rw [hgd _ hh, hgd _ hh1]
      have hstep := List.chain'_iff_get.mp hmono
        ((gibLoop mg 0 r0 1 r0 rest).getD j default).2.2 (by omega)
      simpa using hstep

/-- Witness for C4 at the four-record example table, whose sequence
numbers 1, 2, 3, 4 are strictly increasing. -/
theorem claim_C4_partition_invariant_witness :
    ∃ spans : List (Nat × Nat),
      spans.length = (group_into_blocks tAAAB 15).1.length ∧
      (spans.flatMap fun p => List.range' p.1 (p.2 + 1 - p.1)) =
        List.range tAAAB.rows.length ∧
      (∀ j, j < spans.length →
        (spans.getD j (0, 0)).1 ≤ (spans.getD j (0, 0)).2 ∧
        (spans.getD j (0, 0)).2 < tAAAB.rows.length ∧
        ((group_into_blocks tAAAB 15).1.getD j default).seq0 =
          (tAAAB.rows.getD (spans.getD j (0, 0)).1 default).seq_num ∧
        ((group_into_blocks tAAAB 15).1.getD j default).seq1 =
          (tAAAB.rows.getD (spans.getD j (0, 0)).2 default).seq_num) ∧
      (∀ j, j + 1 < (group_into_blocks tAAAB 15).1.length →
        ((group_into_blocks tAAAB 15).1.getD j default).seq1 <
          ((group_into_blocks tAAAB 15).1.getD (j + 1) default).seq0) :=
  claim_C4_partition_invariant tAAAB 15 (by decide)
    (by simp [tAAAB, rowA1, rowA2, rowA3, rowB4, List.chain'_cons])
